import Mathlib

/-!
# Verification of the Gutenberg chunk parser and the prompt assembly (`main.go`)

Go strings are modelled as lists of Unicode code points (`Str`); the source
file is taken to be valid UTF-8.  `strings.HasPrefix`, `strings.HasSuffix`
and the byte slice `s[1:len(s)-1]` agree with their code-point versions
here, because the only bytes they look at or cut at are ASCII (`*`, `=`).

The parser works on the lines that `bufio.Scanner` yields (line ends
removed).  A run-time panic of the Go program is an explicit error value.
-/

namespace Gutenberg

/-- A Go string, as its sequence of code points. -/
abbrev Str := List Char

/-- Run-time panics the program can raise. -/
inductive Panic where
  | sliceBounds (low high : Nat)
  deriving DecidableEq, Repr

/-- Equality of outcomes (a result or a panic) is decidable. -/
instance instDecidableEqExcept {ε α : Type} [DecidableEq ε] [DecidableEq α] :
    DecidableEq (Except ε α)
  | .ok a, .ok b => if h : a = b then isTrue (by rw [h]) else isFalse (by intro e; cases e; exact h rfl)
  | .error a, .error b => if h : a = b then isTrue (by rw [h]) else isFalse (by intro e; cases e; exact h rfl)
  | .ok _, .error _ => isFalse (by intro e; cases e)
  | .error _, .ok _ => isFalse (by intro e; cases e)

/-- `unicode.IsSpace`: the Latin-1 white space and the Unicode `White_Space`
code points. -/
def isSpace (c : Char) : Bool :=
  let n := c.toNat
  (9 ≤ n && n ≤ 13) || n == 32 || n == 0x85 || n == 0xA0 || n == 0x1680 ||
  (0x2000 ≤ n && n ≤ 0x200A) || n == 0x2028 || n == 0x2029 || n == 0x202F ||
  n == 0x205F || n == 0x3000

/-- `strings.TrimSpace`: leading and trailing white space removed. -/
def TrimSpace (s : Str) : Str :=
  ((s.dropWhile isSpace).reverse.dropWhile isSpace).reverse

/-- `strings.HasPrefix s p`. -/
def HasPrefix (s p : Str) : Bool := p.isPrefixOf s

/-- `strings.HasSuffix s p`. -/
def HasSuffix (s p : Str) : Bool := p.isSuffixOf s

/-- `strings.ReplaceAll(line, "\r", "")`. -/
def removeCR (line : Str) : Str := line.filter (fun c => c != '\r')

/-- The Go slice expression `s[low:high]`; out-of-range indices panic. -/
def slice (s : Str) (low high : Nat) : Except Panic Str :=
  if low ≤ high ∧ high ≤ s.length then .ok ((s.take high).drop low)
  else .error (.sliceBounds low high)

/-- The start marker of `loadGutenberg`. -/
def startMarker : Str := "*** START OF THIS PROJECT GUTENBERG EBOOK".toList

/-- The end marker of `loadGutenberg`. -/
def endMarker : Str := "*** END OF THIS PROJECT GUTENBERG EBOOK".toList

/-- The heading delimiter `"="`. -/
def delim : Str := ['=']

/-- The local variables of `loadGutenberg` that the loop updates. -/
structure LoadState where
  ret : List Str
  buff : Str
  reject : Bool
  deriving DecidableEq, Repr

/-- The variables as declared before the loop. -/
def LoadState.init : LoadState := { ret := [], buff := [], reject := true }

/-- One iteration of the `for scanner.Scan()` loop body on `line`. -/
def loopBody (st : LoadState) (line : Str) : Except Panic LoadState :=
  let strippedLine := TrimSpace line
  if st.reject then
    if HasPrefix strippedLine startMarker then
      .ok { st with reject := false }
    else
      .ok st
  else
    if HasPrefix strippedLine endMarker then
      .ok { st with reject := true }
    else if strippedLine ≠ [] then
      if HasPrefix strippedLine delim && HasSuffix strippedLine delim then
        match slice strippedLine 1 (strippedLine.length - 1) with
        | .error e => .error e
        | .ok h => .ok { ret := st.ret ++ [st.buff], buff := h ++ "\n\n".toList, reject := false }
      else
        .ok { st with buff := st.buff ++ removeCR line }
    else
      .ok st

/-- The whole scan loop over the lines the scanner yields. -/
def scanLoop : LoadState → List Str → Except Panic LoadState
  | st, [] => .ok st
  | st, line :: rest =>
    match loopBody st line with
    | .error e => .error e
    | .ok st1 => scanLoop st1 rest

/-- The code after the loop (without the scanner-error return): the last
buffer is appended when it is not blank. -/
def finish (st : LoadState) : List Str :=
  if TrimSpace st.buff ≠ [] then st.ret ++ [st.buff] else st.ret

/-- What reading the file gives: `os.Open` fails, or the scanner yields
`lines` and then ends, with or without an error (`scanner.Err()`). -/
inductive FileRead where
  | openError
  | scanned (lines : List Str) (scanErr : Bool)
  deriving DecidableEq, Repr

/-- The function `loadGutenberg`, on the outcome of reading the file. -/
def loadGutenberg : FileRead → Except Panic (List Str)
  | .openError => .ok []
  | .scanned lines scanErr =>
    match scanLoop .init lines with
    | .error e => .error e
    | .ok st => if scanErr then .ok [] else .ok (finish st)

/-- The parser on a sequence of input lines that is read without error. -/
def parse (lines : List Str) : Except Panic (List Str) :=
  loadGutenberg (.scanned lines false)

/-! ### Line classes and the collected text, in the words of the specification -/

/-- The line is empty after trimming. -/
def isBlank (line : Str) : Bool := TrimSpace line == []

/-- The trimmed line starts with the start marker. -/
def isStart (line : Str) : Bool := HasPrefix (TrimSpace line) startMarker

/-- The trimmed line starts with the end marker. -/
def isEnd (line : Str) : Bool := HasPrefix (TrimSpace line) endMarker

/-- The trimmed line begins and ends with the heading delimiter. -/
def isHeading (line : Str) : Bool :=
  HasPrefix (TrimSpace line) delim && HasSuffix (TrimSpace line) delim

/-- The non-blank lines that lie in a collecting region (after a start-marker
line, up to the next end-marker line or the end of input), in order; the
flag says whether the scan begins before a start marker. -/
def collected : Bool → List Str → List Str
  | _, [] => []
  | true, l :: rest => if isStart l then collected false rest else collected true rest
  | false, l :: rest =>
    if isEnd l then collected true rest
    else if isBlank l then collected false rest
    else l :: collected false rest

/-- Whether the scan is before a start marker once `lines` have gone by. -/
def rejectAfter : Bool → List Str → Bool
  | r, [] => r
  | true, l :: rest => if isStart l then rejectAfter false rest else rejectAfter true rest
  | false, l :: rest => if isEnd l then rejectAfter true rest else rejectAfter false rest

/-- No heading line is met while collecting in `lines`; the flag says whether
the scan begins before a start marker.  (A heading line that lies before a
start marker is discarded like any other line there.) -/
def headingFree : Bool → List Str → Bool
  | _, [] => true
  | true, l :: rest => if isStart l then headingFree false rest else headingFree true rest
  | false, l :: rest =>
    if isEnd l then headingFree true rest else !isHeading l && headingFree false rest

/-- The body text of a run of lines: its collected lines, carriage returns
removed, one after the other with nothing in between. -/
def bodyText (reject : Bool) (lines : List Str) : Str :=
  ((collected reject lines).map removeCR).flatten

/-! ### Prompt assembly -/

/-- `schema.Document`, with the one field the program uses. -/
structure Document where
  PageContent : Str
  deriving DecidableEq, Repr

/-- `strings.Join(elems, sep)`. -/
def Join : List Str → Str → Str
  | [], _ => []
  | [a], _ => a
  | a :: b :: rest, sep => a ++ sep ++ Join (b :: rest) sep

/-- A piece of a template: literal text, or a placeholder `{{.name}}`. -/
inductive Seg where
  | text (s : Str)
  | field (name : Str)
  deriving DecidableEq, Repr

/-- Modelled from the spec: the template engine behind `prompts.PromptTemplate`
(the `langchaingo` library, not part of the repository).  The template text
is cut at its named placeholders `{{.name}}`; everything else is literal. -/
def parseTemplate : Bool → Str → Str → List Seg
  | false, acc, [] => [.text acc.reverse]
  | true, acc, [] => [.field acc.reverse]
  | false, acc, [c] => [.text (c :: acc).reverse]
  | false, acc, [c1, c2] => [.text (c2 :: c1 :: acc).reverse]
  | false, acc, c1 :: c2 :: c3 :: rest =>
    if c1 = '{' ∧ c2 = '{' ∧ c3 = '.' then .text acc.reverse :: parseTemplate true [] rest
    else parseTemplate false (c1 :: acc) (c2 :: c3 :: rest)
  | true, acc, [c] => [.field (c :: acc).reverse]
  | true, acc, c1 :: c2 :: rest =>
    if c1 = '}' ∧ c2 = '}' then .field acc.reverse :: parseTemplate false [] rest
    else parseTemplate true (c1 :: acc) (c2 :: rest)

/-- Modelled from the spec: rendering of a parsed template, each placeholder
replaced by the value given for its name, once and verbatim; a name without
a value is an error. -/
def render : List Seg → List (Str × Str) → Option Str
  | [], _ => some []
  | .text s :: rest, values => (render rest values).map (fun t => s ++ t)
  | .field name :: rest, values =>
    match values.lookup name with
    | none => none
    | some v => (render rest values).map (fun t => v ++ t)

/-- Modelled from the spec: `promptTemplate.Format(values)` of the
`langchaingo` library, which is not part of the repository: the template
with its named placeholders substituted. -/
def Format (template : Str) (values : List (Str × Str)) : Option Str :=
  render (parseTemplate false [] template) values

/-- The loop `for _, doc := range resDocs` of `getPromptForLLM`. -/
def resStrings (resDocs : List Document) : List Str :=
  resDocs.foldl (fun acc doc => acc ++ [doc.PageContent]) []

/-- The function `getPromptForLLM`; the retriever is the external call
`GetRelevantDocuments`, and `none` is the exit through `log.Fatal`. -/
def getPromptForLLM (promptTemplate query : Str)
    (GetRelevantDocuments : Str → Option (List Document)) : Option Str :=
  match GetRelevantDocuments query with
  | none => none
  | some resDocs =>
    Format promptTemplate
      [("context".toList, Join (resStrings resDocs) "\n".toList), ("query".toList, query)]

/-- The template text of `main`. -/
def promptTpl : Str :=
  "Human: Context information is below.\n---------------------\n{{.context}}\n---------------------\nGiven the context information and not prior knowledge, answer the query. Please be brief, concise, and complete.\nIf the context information does not contain an answer to the query, respond with \"No information\".Query: {{.query}}\nAssistant: ".toList

/-- The template text before the context placeholder. -/
def promptHead : Str := "Human: Context information is below.\n---------------------\n".toList

/-- The template text between the two placeholders. -/
def promptMiddle : Str :=
  "\n---------------------\nGiven the context information and not prior knowledge, answer the query. Please be brief, concise, and complete.\nIf the context information does not contain an answer to the query, respond with \"No information\".Query: ".toList

/-- The template text after the query placeholder. -/
def promptTail : Str := "\nAssistant: ".toList

/-- The query of `main`. -/
def mainQuery : Str := "What is the address of AgriData Resources?".toList

/-! ### The pipeline of `main` -/

/-- What the program prints. -/
inductive Printed where
  | errorOpeningFile
  | errorReadingFile
  | loadedDocuments (n : Nat)
  | loadedPages (n : Nat)
  | prompt (p : Str)
  | response (r : Str)
  deriving DecidableEq, Repr

/-- The observable steps of a run of `main`. -/
inductive Event where
  | print (what : Printed)
  | addDocuments (docs : List Document)
  | getRelevantDocuments (query : Str)
  | call (prompt : Str)
  | fatal
  | crash (p : Panic)
  deriving DecidableEq, Repr

/-- The external collaborators of `main`: whether each constructor call
succeeds, what reading the source file gives, and what the vector store and
the language model answer. -/
structure Services where
  embedderLLM : Bool
  embedder : Bool
  store : Bool
  file : FileRead
  AddDocuments : List Document → Bool
  GetRelevantDocuments : List Document → Str → Option (List Document)
  llm : Bool
  Call : Str → Option Str

/-- The lines `loadGutenberg` prints. -/
def loadGutenbergPrints : FileRead → List Event
  | .openError => [.print .errorOpeningFile]
  | .scanned lines scanErr =>
    match scanLoop .init lines with
    | .error _ => []
    | .ok st =>
      if scanErr then [.print .errorReadingFile]
      else [.print (.loadedDocuments (finish st).length)]

/-- The function `main`, as the trace of its observable steps. -/
def main (w : Services) : List Event :=
  if !w.embedderLLM then [.fatal]
  else if !w.embedder then [.fatal]
  else if !w.store then [.fatal]
  else
    match loadGutenberg w.file with
    | .error p => [.crash p]
    | .ok pages =>
      let docs := pages.map Document.mk
      let t := loadGutenbergPrints w.file ++ [.print (.loadedPages pages.length), .addDocuments docs]
      if !w.AddDocuments docs then t ++ [.fatal]
      else if !w.llm then t ++ [.fatal]
      else
        match getPromptForLLM promptTpl mainQuery (w.GetRelevantDocuments docs) with
        | none => t ++ [.getRelevantDocuments mainQuery, .fatal]
        | some searchPrompt =>
          let t2 := t ++ [.getRelevantDocuments mainQuery, .print (.prompt searchPrompt), .call searchPrompt]
          match w.Call searchPrompt with
          | none => t2 ++ [.fatal]
          | some r => t2 ++ [.print (.response r)]

/-! ### Sample inputs -/

/-- A start-marker line as it stands in a Project Gutenberg text. -/
def startLine : Str := "*** START OF THIS PROJECT GUTENBERG EBOOK COMPUTERS ON THE FARM ***".toList

/-- An end-marker line as it stands in a Project Gutenberg text. -/
def endLine : Str := "*** END OF THIS PROJECT GUTENBERG EBOOK COMPUTERS ON THE FARM ***".toList

/-- A run of `main` in which the source file cannot be opened and every
external service succeeds: the store holds nothing relevant and the model
answers with the sentinel. -/
def openFailure : Services where
  embedderLLM := true
  embedder := true
  store := true
  file := .openError
  AddDocuments := fun _ => true
  GetRelevantDocuments := fun _ _ => some []
  llm := true
  Call := fun _ => some "No information".toList

/-! ## Theorems

### Basic facts about the string functions -/

theorem TrimSpace_nil : TrimSpace [] = [] := rfl

theorem TrimSpace_eq_nil_iff (s : Str) : TrimSpace s = [] ↔ ∀ c ∈ s, isSpace c = true := by
  unfold TrimSpace
  rw [List.reverse_eq_nil_iff, List.dropWhile_eq_nil_iff]
  constructor
  · intro h
    have hd : s.dropWhile isSpace = [] := by
      by_contra hne
      have h1 := List.head_dropWhile_not isSpace s hne
      have h2 := h _ (List.mem_reverse.mpr (List.head_mem hne))
      simp [h2] at h1
    exact List.dropWhile_eq_nil_iff.mp hd
  · intro h c hc
    have hd : s.dropWhile isSpace = [] := List.dropWhile_eq_nil_iff.mpr h
    simp [hd] at hc

theorem TrimSpace_head_not_space (s : Str) (c : Char) (t : Str)
    (h : TrimSpace s = c :: t) : isSpace c = false := by
  unfold TrimSpace at h
  have hne : s.dropWhile isSpace ≠ [] := by
    intro h0
    simp [h0] at h
  have h1 := List.head_dropWhile_not isSpace s hne
  have hsuf : (c :: t) <+: s.dropWhile isSpace := by
    have h2 : ((s.dropWhile isSpace).reverse.dropWhile isSpace) <:+ (s.dropWhile isSpace).reverse :=
      List.dropWhile_suffix _
    have h3 := List.reverse_prefix.mpr h2
    rw [List.reverse_reverse] at h3
    rw [h] at h3
    exact h3
  obtain ⟨u, hu⟩ := hsuf
  have : (s.dropWhile isSpace).head hne = c := by
    simp [← hu]
  rw [this] at h1
  simpa using h1

theorem loopBody_blank (st : LoadState) (line : Str) (h : TrimSpace line = []) :
    loopBody st line = .ok st := by
  unfold loopBody
  simp only [h]
  cases hr : st.reject <;> simp [HasPrefix, startMarker, endMarker]

theorem scanLoop_append_ok (a b : List Str) :
    ∀ st st1, scanLoop st a = .ok st1 → scanLoop st (a ++ b) = scanLoop st1 b := by
  induction a with
  | nil =>
    intro st st1 h
    simp [scanLoop] at h
    simp [h]
  | cons l rest ih =>
    intro st st1 h
    simp only [scanLoop, List.cons_append] at h ⊢
    cases hb : loopBody st l with
    | error e => rw [hb] at h; simp at h
    | ok s2 =>
      rw [hb] at h
      simp only at h ⊢
      exact ih s2 st1 h

theorem scanLoop_filter_blank (lines : List Str) :
    ∀ st, scanLoop st (lines.filter (fun l => !isBlank l)) = scanLoop st lines := by
  induction lines with
  | nil => intro st; rfl
  | cons l rest ih =>
    intro st
    by_cases hb : isBlank l = true
    · have hl : TrimSpace l = [] := by simpa [isBlank] using hb
      simp [List.filter, hb, scanLoop, loopBody_blank st l hl, ih]
    · simp only [Bool.not_eq_true] at hb
      simp only [List.filter, hb, Bool.not_false, scanLoop]
      cases loopBody st l with
      | error e => rfl
      | ok s2 => exact ih s2

theorem scanLoop_rejecting (lines : List Str) (h : ∀ l ∈ lines, isStart l = false) :
    ∀ ret buff, scanLoop ⟨ret, buff, true⟩ lines = .ok ⟨ret, buff, true⟩ := by
  induction lines with
  | nil => intro ret buff; rfl
  | cons l rest ih =>
    intro ret buff
    have hl : HasPrefix (TrimSpace l) startMarker = false := by
      simpa [isStart] using h l (List.mem_cons_self _ _)
    have hb : loopBody ⟨ret, buff, true⟩ l = .ok ⟨ret, buff, true⟩ := by
      simp [loopBody, hl]
    simp only [scanLoop, hb]
    exact ih (fun x hx => h x (List.mem_cons_of_mem _ hx)) ret buff

theorem loopBody_append (ret : List Str) (buff l : Str) (hend : isEnd l = false)
    (hblank : isBlank l = false) (hhead : isHeading l = false) :
    loopBody ⟨ret, buff, false⟩ l = .ok ⟨ret, buff ++ removeCR l, false⟩ := by
  have h1 : HasPrefix (TrimSpace l) endMarker = false := by simpa [isEnd] using hend
  have h2 : TrimSpace l ≠ [] := by simpa [isBlank] using hblank
  have h3 : (HasPrefix (TrimSpace l) delim && HasSuffix (TrimSpace l) delim) = false := by
    simpa [isHeading] using hhead
  simp [loopBody, h1, h2, h3]

theorem loopBody_end (ret : List Str) (buff l : Str) (hend : isEnd l = true) :
    loopBody ⟨ret, buff, false⟩ l = .ok ⟨ret, buff, true⟩ := by
  have h1 : HasPrefix (TrimSpace l) endMarker = true := by simpa [isEnd] using hend
  simp [loopBody, h1]

theorem loopBody_start (ret : List Str) (buff l : Str) (hstart : isStart l = true) :
    loopBody ⟨ret, buff, true⟩ l = .ok ⟨ret, buff, false⟩ := by
  have h1 : HasPrefix (TrimSpace l) startMarker = true := by simpa [isStart] using hstart
  simp [loopBody, h1]

theorem loopBody_skip (ret : List Str) (buff l : Str) (hstart : isStart l = false) :
    loopBody ⟨ret, buff, true⟩ l = .ok ⟨ret, buff, true⟩ := by
  have h1 : HasPrefix (TrimSpace l) startMarker = false := by simpa [isStart] using hstart
  simp [loopBody, h1]

theorem headingFree_of_noHeading (body : List Str) (h : ∀ l ∈ body, isHeading l = false) :
    ∀ reject, headingFree reject body = true := by
  induction body with
  | nil => intro reject; cases reject <;> rfl
  | cons l rest ih =>
    intro reject
    have hrest := ih (fun x hx => h x (List.mem_cons_of_mem _ hx))
    have hl := h l (List.mem_cons_self _ _)
    cases reject with
    | true => simp only [headingFree]; split <;> simp [hrest]
    | false => simp only [headingFree]; split <;> simp [hrest, hl]

theorem scanLoop_headingFree (body : List Str) :
    ∀ ret buff reject, headingFree reject body = true →
      scanLoop ⟨ret, buff, reject⟩ body
        = .ok ⟨ret, buff ++ bodyText reject body, rejectAfter reject body⟩ := by
  induction body with
  | nil => intro ret buff reject _; simp [scanLoop, bodyText, collected, rejectAfter]
  | cons l rest ih =>
    intro ret buff reject h
    cases reject with
    | true =>
      by_cases hs : isStart l = true
      · have hf : headingFree false rest = true := by simpa [headingFree, hs] using h
        simp only [scanLoop, loopBody_start ret buff l hs, ih _ _ _ hf]
        simp [bodyText, collected, rejectAfter, hs]
      · simp only [Bool.not_eq_true] at hs
        have hf : headingFree true rest = true := by simpa [headingFree, hs] using h
        simp only [scanLoop, loopBody_skip ret buff l hs, ih _ _ _ hf]
        simp [bodyText, collected, rejectAfter, hs]
    | false =>
      by_cases he : isEnd l = true
      · have hf : headingFree true rest = true := by simpa [headingFree, he] using h
        simp only [scanLoop, loopBody_end ret buff l he, ih _ _ _ hf]
        simp [bodyText, collected, rejectAfter, he]
      · simp only [Bool.not_eq_true] at he
        have hf : isHeading l = false ∧ headingFree false rest = true := by
          simpa [headingFree, he] using h
        by_cases hb : isBlank l = true
        · have hT : TrimSpace l = [] := by simpa [isBlank] using hb
          simp only [scanLoop, loopBody_blank _ l hT, ih _ _ _ hf.2]
          simp [bodyText, collected, rejectAfter, he, hb]
        · simp only [Bool.not_eq_true] at hb
          simp only [scanLoop, loopBody_append ret buff l he hb hf.1, ih _ _ _ hf.2]
          simp [bodyText, collected, rejectAfter, he, hb]

theorem scanLoop_noHeading (body : List Str) (h : ∀ l ∈ body, isHeading l = false)
    (ret : List Str) (buff : Str) (reject : Bool) :
    scanLoop ⟨ret, buff, reject⟩ body
      = .ok ⟨ret, buff ++ bodyText reject body, rejectAfter reject body⟩ :=
  scanLoop_headingFree body ret buff reject (headingFree_of_noHeading body h reject)

theorem collected_not_blank (lines : List Str) :
    ∀ reject, ∀ l ∈ collected reject lines, isBlank l = false := by
  induction lines with
  | nil => intro reject l hl; simp [collected] at hl
  | cons a rest ih =>
    intro reject l hl
    cases reject with
    | true =>
      simp only [collected] at hl
      split at hl
      · exact ih false l hl
      · exact ih true l hl
    | false =>
      simp only [collected] at hl
      split at hl
      · exact ih true l hl
      · split at hl
        · exact ih false l hl
        · rcases List.mem_cons.mp hl with rfl | h2
          · simpa using ‹¬ isBlank l = true›
          · exact ih false l h2

theorem removeCR_not_blank (l : Str) (h : isBlank l = false) :
    ∃ c ∈ removeCR l, isSpace c = false := by
  have h1 : TrimSpace l ≠ [] := by simpa [isBlank] using h
  rw [Ne, TrimSpace_eq_nil_iff] at h1
  push_neg at h1
  obtain ⟨c, hc, hsp⟩ := h1
  refine ⟨c, ?_, by simpa using hsp⟩
  simp only [removeCR, List.mem_filter]
  refine ⟨hc, ?_⟩
  have : c ≠ '\r' := by
    intro he
    rw [he] at hsp
    exact hsp (by decide)
  simpa using this

theorem bodyText_not_blank (reject : Bool) (lines : List Str)
    (h : collected reject lines ≠ []) (pre : Str) :
    TrimSpace (pre ++ bodyText reject lines) ≠ [] := by
  rw [Ne, TrimSpace_eq_nil_iff]
  push_neg
  obtain ⟨l, hl⟩ := List.exists_mem_of_ne_nil _ h
  obtain ⟨c, hc, hsp⟩ := removeCR_not_blank l (collected_not_blank lines reject l hl)
  refine ⟨c, ?_, by simp [hsp]⟩
  apply List.mem_append_right
  simp only [bodyText, List.mem_flatten, List.mem_map]
  exact ⟨removeCR l, ⟨l, hl, rfl⟩, hc⟩

theorem loopBody_heading (ret : List Str) (buff l h : Str)
    (hl : TrimSpace l = '=' :: (h ++ ['='])) :
    loopBody ⟨ret, buff, false⟩ l = .ok ⟨ret ++ [buff], h ++ "\n\n".toList, false⟩ := by
  have h1 : HasPrefix (TrimSpace l) endMarker = false := by
    rw [hl]; simp [HasPrefix, endMarker, List.isPrefixOf]
  have h2 : HasPrefix (TrimSpace l) delim = true := by
    rw [hl]; simp [HasPrefix, delim, List.isPrefixOf]
  have h3 : HasSuffix (TrimSpace l) delim = true := by
    rw [hl]
    simp only [HasSuffix, delim, List.isSuffixOf, List.reverse_cons, List.reverse_append,
      List.reverse_nil, List.nil_append, List.singleton_append, List.isPrefixOf]
    simp
  have h4 : slice (TrimSpace l) 1 ((TrimSpace l).length - 1) = .ok h := by
    rw [hl]
    have e1 : ('=' :: (h ++ ['='])).length - 1 = h.length + 1 := by simp
    rw [e1]
    have e2 : List.take (h.length + 1) ('=' :: (h ++ ['='])) = '=' :: h := by
      simp [List.take_append_of_le_length]
    simp [slice, e2]
  have h5 : TrimSpace l ≠ [] := by rw [hl]; simp
  simp [loopBody, h1, h2, h3, h4, h5]

theorem loopBody_ret_grows (st st1 : LoadState) (l : Str) (h : loopBody st l = .ok st1) :
    ∃ t, st1.ret = st.ret ++ t := by
  unfold loopBody at h
  dsimp only at h
  split at h
  · split at h <;> (cases h; exact ⟨[], by simp⟩)
  · split at h
    · cases h; exact ⟨[], by simp⟩
    · split at h
      · split at h
        · split at h
          · cases h
          · cases h; exact ⟨[st.buff], rfl⟩
        · cases h; exact ⟨[], by simp⟩
      · cases h; exact ⟨[], by simp⟩

theorem scanLoop_ret_grows (lines : List Str) :
    ∀ st st1, scanLoop st lines = .ok st1 → ∃ t, st1.ret = st.ret ++ t := by
  induction lines with
  | nil =>
    intro st st1 h
    simp [scanLoop] at h
    exact ⟨[], by simp [h]⟩
  | cons l rest ih =>
    intro st st1 h
    simp only [scanLoop] at h
    cases hb : loopBody st l with
    | error e => rw [hb] at h; simp at h
    | ok s2 =>
      rw [hb] at h
      obtain ⟨t1, ht1⟩ := loopBody_ret_grows st s2 l hb
      obtain ⟨t2, ht2⟩ := ih s2 st1 h
      exact ⟨t1 ++ t2, by rw [ht2, ht1, List.append_assoc]⟩

theorem finish_ret_grows (st : LoadState) : ∃ t, finish st = st.ret ++ t := by
  unfold finish
  split
  · exact ⟨[st.buff], rfl⟩
  · exact ⟨[], by simp⟩

theorem Join_eq_intercalate (xs : List Str) (sep : Str) :
    Join xs sep = List.intercalate sep xs := by
  induction xs with
  | nil => rfl
  | cons a rest ih =>
    cases rest with
    | nil => simp [Join, List.intercalate]
    | cons b rest2 =>
      simp only [Join, ih]
      simp [List.intercalate, List.intersperse]

theorem resStrings_eq_map (docs : List Document) :
    resStrings docs = docs.map (fun d => d.PageContent) := by
  have key : ∀ (ds : List Document) (acc : List Str),
      ds.foldl (fun acc doc => acc ++ [doc.PageContent]) acc
        = acc ++ ds.map (fun d => d.PageContent) := by
    intro ds
    induction ds with
    | nil => intro acc; simp
    | cons d rest ih => intro acc; simp [List.foldl, ih]
  simpa [resStrings] using key docs []

set_option maxRecDepth 100000 in
theorem parseTemplate_promptTpl :
    parseTemplate false [] promptTpl
      = [.text promptHead, .field "context".toList, .text promptMiddle,
         .field "query".toList, .text promptTail] := by
  decide

theorem loopBody_heading_ret (ret : List Str) (buff l : Str) (st1 : LoadState)
    (hh : isHeading l = true) (h : loopBody ⟨ret, buff, false⟩ l = .ok st1) :
    st1.ret = ret ++ [buff] := by
  have hd : (HasPrefix (TrimSpace l) delim && HasSuffix (TrimSpace l) delim) = true := by
    simpa [isHeading] using hh
  have hp : HasPrefix (TrimSpace l) delim = true := by
    simp only [Bool.and_eq_true] at hd
    exact hd.1
  have hne : TrimSpace l ≠ [] := by
    intro h0
    rw [h0] at hp
    simp [HasPrefix, delim] at hp
  have hend : HasPrefix (TrimSpace l) endMarker = false := by
    cases hT : TrimSpace l with
    | nil => exact absurd hT hne
    | cons c t =>
      rw [hT] at hp
      have hc : c = '=' := by
        have := hp
        simp [HasPrefix, delim, List.isPrefixOf] at this
        exact this.symm
      rw [hc]
      simp [HasPrefix, endMarker, List.isPrefixOf]
  simp only [loopBody, hend, hd] at h
  rw [if_pos hne] at h
  cases hs : slice (TrimSpace l) 1 ((TrimSpace l).length - 1) with
  | error e => rw [hs] at h; simp at h
  | ok t =>
    rw [hs] at h
    simp at h
    rw [← h]

theorem render_promptTpl (ctx q : Str) :
    render [.text promptHead, .field "context".toList, .text promptMiddle,
        .field "query".toList, .text promptTail]
      [("context".toList, ctx), ("query".toList, q)]
      = some (promptHead ++ (ctx ++ (promptMiddle ++ (q ++ promptTail)))) := by
  rfl

theorem Format_promptTpl (ctx q : Str) :
    Format promptTpl [("context".toList, ctx), ("query".toList, q)]
      = some (promptHead ++ ctx ++ promptMiddle ++ q ++ promptTail) := by
  unfold Format
  rw [parseTemplate_promptTpl, render_promptTpl]
  simp only [List.append_assoc]

/-! ### The claims -/

/-- C1 (the code departs from it): a heading line appends the buffer to the
result without testing it, so a heading right after the start marker puts
the empty chunk into the result, and a heading after the heading line `==`
puts a chunk of white space only into it. -/
theorem parse_emits_blank_chunk :
    (parse [startLine, "=ADDRESS=".toList, "AgriData Resources, 123 Main St".toList]
        = .ok [[], "ADDRESS\n\nAgriData Resources, 123 Main St".toList]
      ∧ TrimSpace [] = [])
    ∧ (parse [startLine, "On the farm".toList, "==".toList, "=ADDRESS=".toList, "123 Main St".toList]
        = .ok ["On the farm".toList, "\n\n".toList, "ADDRESS\n\n123 Main St".toList]
      ∧ TrimSpace "\n\n".toList = []) := by
  decide

/-- C2 (the code departs from it): a well-formed input with one heading and
no text before it gives two chunks, the first of them empty, where the claim
promises one. -/
theorem parse_one_heading_two_chunks :
    parse [startLine, "=ADDRESS=".toList, "AgriData Resources, 123 Main St".toList, endLine]
      = .ok [[], "ADDRESS\n\nAgriData Resources, 123 Main St".toList] := by
  decide

/-- C3, refuted as stated: with a start marker and no heading line the parser
may return no chunk at all (nothing collected), and a chunk it returns is the
buffer as collected, not a trimmed text: `"  On the farm "` is returned with
its blanks, and no string trims to it. -/
theorem parse_no_heading_counterexample :
    ((∃ l ∈ [startLine, [], endLine], isStart l = true)
      ∧ (∀ l ∈ [startLine, [], endLine], isHeading l = false)
      ∧ parse [startLine, [], endLine] = .ok [])
    ∧ ((∃ l ∈ [startLine, "  On the farm ".toList], isStart l = true)
      ∧ (∀ l ∈ [startLine, "  On the farm ".toList], isHeading l = false)
      ∧ ¬ ∃ body, parse [startLine, "  On the farm ".toList] = .ok [TrimSpace body]) := by
  refine ⟨by decide, by decide, by decide, ?_⟩
  rintro ⟨body, hb⟩
  have he : parse [startLine, "  On the farm ".toList] = .ok ["  On the farm ".toList] := by
    decide
  rw [he] at hb
  have h1 : TrimSpace body = ' ' :: " On the farm ".toList := by
    have h2 := Except.ok.inj hb
    exact (List.cons.inj h2).1.symm
  have h3 := TrimSpace_head_not_space body _ _ h1
  exact absurd h3 (by decide)

/-- C3, amended: with no heading line the parser returns at most one chunk:
none when no non-blank line lies in a collecting region, and otherwise the
single chunk made of the non-blank lines of the collecting regions, carriage
returns removed, put one after the other in order, with no separator and
untrimmed. -/
theorem parse_no_heading (lines : List Str) (h : ∀ l ∈ lines, isHeading l = false) :
    (collected true lines = [] → parse lines = .ok [])
    ∧ (collected true lines ≠ [] → parse lines = .ok [bodyText true lines]) := by
  have hrun := scanLoop_noHeading lines h [] [] true
  constructor
  · intro hc
    have hb : bodyText true lines = [] := by simp [bodyText, hc]
    simp [parse, loadGutenberg, LoadState.init, hrun, finish, hb, TrimSpace_nil]
  · intro hc
    have hb := bodyText_not_blank true lines hc []
    simp only [List.nil_append] at hb
    simp [parse, loadGutenberg, LoadState.init, hrun, finish, hb]

theorem parse_no_heading_witness :
    (∀ l ∈ [startLine, " On the\r farm".toList, [], "by hand ".toList, endLine],
        isHeading l = false)
    ∧ parse [startLine, " On the\r farm".toList, [], "by hand ".toList, endLine]
      = .ok [" On the farmby hand ".toList] :=
  ⟨by decide,
   (parse_no_heading [startLine, " On the\r farm".toList, [], "by hand ".toList, endLine]
      (by decide)).2 (by decide)⟩

/-- C4: when no line, once trimmed, starts with the start marker, the parser
returns the empty chunk sequence. -/
theorem parse_without_start_marker (lines : List Str)
    (h : ∀ l ∈ lines, HasPrefix (TrimSpace l) startMarker = false) :
    parse lines = .ok [] := by
  have hs : ∀ l ∈ lines, isStart l = false := fun l hl => by simpa [isStart] using h l hl
  simp [parse, loadGutenberg, LoadState.init, scanLoop_rejecting lines hs, finish, TrimSpace_nil]

theorem parse_without_start_marker_witness :
    (∀ l ∈ ["=ADDRESS=".toList, "123 Main St".toList, endLine],
        HasPrefix (TrimSpace l) startMarker = false)
    ∧ parse ["=ADDRESS=".toList, "123 Main St".toList, endLine] = .ok [] :=
  ⟨by decide, parse_without_start_marker _ (by decide)⟩

/-- C5, refuted as stated: with two start/end regions and no heading, the
text of the first region and the text of the second end up in one chunk. -/
theorem parse_two_regions_counterexample :
    parse [startLine, "first region".toList, endLine, "between".toList,
           startLine, "second region".toList, endLine]
      = .ok ["first regionsecond region".toList] := by
  decide

/-- C5, amended: an end-marker line met while collecting only returns the
parser to the before-start state; the chunk list and the buffer stay as they
are, nothing is flushed.  After the next start-marker line the lines of the
following region (up to its first heading line) are appended to that same
buffer. -/
theorem end_marker_keeps_buffer (ret : List Str) (buff e s : Str) (gap body : List Str)
    (he : isEnd e = true) (hgap : ∀ l ∈ gap, isStart l = false) (hs : isStart s = true)
    (hbody : ∀ l ∈ body, isHeading l = false) :
    loopBody ⟨ret, buff, false⟩ e = .ok ⟨ret, buff, true⟩
    ∧ scanLoop ⟨ret, buff, false⟩ (e :: (gap ++ s :: body))
      = .ok ⟨ret, buff ++ bodyText false body, rejectAfter false body⟩ := by
  refine ⟨loopBody_end ret buff e he, ?_⟩
  simp only [scanLoop, loopBody_end ret buff e he]
  rw [scanLoop_append_ok gap (s :: body) _ _ (scanLoop_rejecting gap hgap ret buff)]
  simp only [scanLoop, loopBody_start ret buff s hs]
  exact scanLoop_noHeading body hbody ret buff false

theorem end_marker_keeps_buffer_witness :
    (isEnd endLine = true ∧ (∀ l ∈ ["between".toList], isStart l = false)
      ∧ isStart startLine = true ∧ (∀ l ∈ ["second".toList], isHeading l = false))
    ∧ (loopBody ⟨["one".toList], "first".toList, false⟩ endLine
        = .ok ⟨["one".toList], "first".toList, true⟩
      ∧ scanLoop ⟨["one".toList], "first".toList, false⟩
          (endLine :: (["between".toList] ++ startLine :: ["second".toList]))
        = .ok ⟨["one".toList], "first".toList ++ bodyText false ["second".toList],
            rejectAfter false ["second".toList]⟩) :=
  ⟨by decide,
   end_marker_keeps_buffer ["one".toList] "first".toList endLine startLine
     ["between".toList] ["second".toList] (by decide) (by decide) (by decide) (by decide)⟩

/-- C6: the prompt is the template text with the context placeholder replaced
by the retrieved strings joined by one newline, in their order, and the query
placeholder replaced by the query as given; with nothing retrieved the
context region is empty and the query is still substituted. -/
theorem getPromptForLLM_assembles (docs : List Document) (query : Str)
    (retriever : Str → Option (List Document)) (h : retriever query = some docs) :
    getPromptForLLM promptTpl query retriever
      = some (promptHead ++ List.intercalate "\n".toList (docs.map (fun d => d.PageContent))
          ++ promptMiddle ++ query ++ promptTail)
    ∧ (docs = [] → getPromptForLLM promptTpl query retriever
        = some (promptHead ++ promptMiddle ++ query ++ promptTail)) := by
  have hmain : getPromptForLLM promptTpl query retriever
      = some (promptHead ++ List.intercalate "\n".toList (docs.map (fun d => d.PageContent))
          ++ promptMiddle ++ query ++ promptTail) := by
    unfold getPromptForLLM
    rw [h]
    show Format promptTpl [("context".toList, Join (resStrings docs) "\n".toList),
      ("query".toList, query)] = _
    rw [Format_promptTpl, resStrings_eq_map, Join_eq_intercalate]
  refine ⟨hmain, ?_⟩
  intro hd
  rw [hmain, hd]
  simp [List.intercalate]

theorem getPromptForLLM_assembles_witness :
    (fun _ => some [Document.mk "ADDRESS\n\n123 Main St".toList, Document.mk "b".toList])
        mainQuery
      = some [Document.mk "ADDRESS\n\n123 Main St".toList, Document.mk "b".toList]
    ∧ getPromptForLLM promptTpl mainQuery
        (fun _ => some [Document.mk "ADDRESS\n\n123 Main St".toList, Document.mk "b".toList])
      = some (promptHead ++ "ADDRESS\n\n123 Main St\nb".toList ++ promptMiddle ++ mainQuery
          ++ promptTail) :=
  ⟨rfl,
   (getPromptForLLM_assembles
      [Document.mk "ADDRESS\n\n123 Main St".toList, Document.mk "b".toList] mainQuery
      (fun _ => some [Document.mk "ADDRESS\n\n123 Main St".toList, Document.mk "b".toList])
      rfl).1⟩

set_option maxRecDepth 100000 in
/-- C7 (the code departs from it): when the file cannot be opened,
`loadGutenberg` prints the error and returns no pages, and `main` goes on:
it calls `AddDocuments` with no documents, retrieves, calls the model and
prints its answer. -/
theorem main_goes_on_after_open_error :
    (∀ (add : List Document → Bool) (get : List Document → Str → Option (List Document))
        (call : Str → Option Str),
        ∃ rest, main ⟨true, true, true, .openError, add, get, true, call⟩
          = [.print .errorOpeningFile, .print (.loadedPages 0), .addDocuments []] ++ rest)
    ∧ main openFailure
      = [.print .errorOpeningFile, .print (.loadedPages 0), .addDocuments [],
         .getRelevantDocuments mainQuery,
         .print (.prompt (promptHead ++ promptMiddle ++ mainQuery ++ promptTail)),
         .call (promptHead ++ promptMiddle ++ mainQuery ++ promptTail),
         .print (.response "No information".toList)] := by
  constructor
  · intro add get call
    unfold main
    simp only [loadGutenberg, loadGutenbergPrints, Bool.not_true, Bool.false_eq_true, if_false,
      List.map_nil, List.length_nil]
    split
    · exact ⟨_, rfl⟩
    · split
      · exact ⟨_, rfl⟩
      · split
        · exact ⟨_, rfl⟩
        · exact ⟨_, rfl⟩
  · decide

/-- C8: when a heading line whose trimmed form is `=h=` is met while
collecting, the buffer it starts is `h`, then the blank-line separator, then
the non-blank lines that follow in the collecting regions up to the next
heading line met while collecting, in order (carriage returns removed).  That
buffer is the chunk the parser emits for the section, at the end of input and
at the next heading line alike. -/
theorem heading_chunk_contents (pre body : List Str) (ret : List Str) (buff l h : Str)
    (hpre : scanLoop .init pre = .ok ⟨ret, buff, false⟩)
    (hl : TrimSpace l = '=' :: (h ++ ['=']))
    (hbody : headingFree false body = true) :
    scanLoop .init (pre ++ l :: body)
        = .ok ⟨ret ++ [buff], h ++ "\n\n".toList ++ bodyText false body, rejectAfter false body⟩
    ∧ (TrimSpace (h ++ "\n\n".toList ++ bodyText false body) ≠ [] →
        parse (pre ++ l :: body)
          = .ok (ret ++ [buff, h ++ "\n\n".toList ++ bodyText false body]))
    ∧ (∀ l2 rest out, rejectAfter false body = false → isHeading l2 = true →
        parse (pre ++ l :: body ++ l2 :: rest) = .ok out →
        ∃ tail, out = ret ++ [buff, h ++ "\n\n".toList ++ bodyText false body] ++ tail) := by
  have hrun : scanLoop .init (pre ++ l :: body)
      = .ok ⟨ret ++ [buff], h ++ "\n\n".toList ++ bodyText false body,
          rejectAfter false body⟩ := by
    rw [scanLoop_append_ok pre (l :: body) _ _ hpre]
    simp only [scanLoop, loopBody_heading ret buff l h hl]
    exact scanLoop_headingFree body _ _ false hbody
  refine ⟨hrun, ?_, ?_⟩
  · intro hne
    simp only [parse, loadGutenberg, hrun, finish]
    rw [if_pos hne]
    simp
  · intro l2 rest out hcol hh hout
    have happ : pre ++ l :: body ++ l2 :: rest = (pre ++ l :: body) ++ (l2 :: rest) := by
      simp
    rw [happ] at hout
    simp only [parse, loadGutenberg] at hout
    rw [scanLoop_append_ok (pre ++ l :: body) (l2 :: rest) _ _ hrun, hcol] at hout
    simp only [scanLoop] at hout
    cases hb : loopBody ⟨ret ++ [buff], h ++ "\n\n".toList ++ bodyText false body, false⟩ l2 with
    | error e => rw [hb] at hout; simp at hout
    | ok s2 =>
      rw [hb] at hout
      simp only at hout
      have h2 := loopBody_heading_ret _ _ l2 s2 hh hb
      cases hr : scanLoop s2 rest with
      | error e => rw [hr] at hout; simp at hout
      | ok s3 =>
        rw [hr] at hout
        simp only [Bool.false_eq_true, if_false] at hout
        obtain ⟨t1, ht1⟩ := scanLoop_ret_grows rest s2 s3 hr
        obtain ⟨t2, ht2⟩ := finish_ret_grows s3
        refine ⟨t1 ++ t2, ?_⟩
        have ho := Except.ok.inj hout
        rw [← ho, ht2, ht1, h2]
        simp

theorem heading_chunk_contents_witness :
    (scanLoop .init [startLine] = .ok ⟨[], [], false⟩
      ∧ TrimSpace "=ADDRESS=".toList = '=' :: ("ADDRESS".toList ++ ['='])
      ∧ headingFree false ["AgriData Resources, 123 Main St".toList] = true)
    ∧ parse [startLine, "=ADDRESS=".toList, "AgriData Resources, 123 Main St".toList]
      = .ok [[], "ADDRESS\n\nAgriData Resources, 123 Main St".toList] :=
  ⟨by decide,
   (heading_chunk_contents [startLine] ["AgriData Resources, 123 Main St".toList] [] []
      "=ADDRESS=".toList "ADDRESS".toList (by decide) (by decide) (by decide)).2.1 (by decide)⟩

/-- C9: two inputs that differ only in lines that are empty after trimming
(inserted or deleted anywhere, in any number) give the same outcome of
`loadGutenberg`, chunk for chunk. -/
theorem parse_ignores_blank_lines (lines1 lines2 : List Str)
    (h : lines1.filter (fun l => !isBlank l) = lines2.filter (fun l => !isBlank l)) :
    parse lines1 = parse lines2 := by
  have e1 := scanLoop_filter_blank lines1 .init
  have e2 := scanLoop_filter_blank lines2 .init
  rw [h] at e1
  simp only [parse, loadGutenberg, ← e1, ← e2]

theorem parse_ignores_blank_lines_witness :
    ([startLine, [], "=ADDRESS=".toList, "  \t".toList, "123 Main St".toList].filter
        (fun l => !isBlank l)
      = [" ".toList, startLine, "=ADDRESS=".toList, "123 Main St".toList, []].filter
        (fun l => !isBlank l))
    ∧ parse [startLine, [], "=ADDRESS=".toList, "  \t".toList, "123 Main St".toList]
      = parse [" ".toList, startLine, "=ADDRESS=".toList, "123 Main St".toList, []] :=
  ⟨by decide, parse_ignores_blank_lines _ _ (by decide)⟩

/-- C10 (the code departs from it): in the collecting state the line `=`
passes both the prefix test and the suffix test, and the slice
`strippedLine[1:0]` is out of bounds: the parser panics and returns no chunk
sequence. -/
theorem parse_panics_on_single_delimiter :
    parse [startLine, "=".toList] = .error (.sliceBounds 1 0) := by
  decide

end Gutenberg
